import Mathlib

/-!
Verification of the markdown-to-DOCX converter (`MarkdownToDocxTool._run` in
`tools.py`) of the auto_analytics repository.

The converter is shallowly embedded: lines are `List Char`, the per-line
classifier and the fence state machine are pure Lean functions, the regex
based inline-span extraction is modelled by explicit scanning functions that
implement the semantics of the three fixed patterns used by the source
(`\*\*(.*?)\*\*`, `\*(.*?)\*` and the backtick pattern), and the effectful
steps (existence checks, image embedding, directory creation, saving) are
parameters gathered in an `Env` structure.
-/

set_option autoImplicit false

namespace MD

/-- The backtick character, delimiter of inline code spans. -/
def backquote : Char := Char.ofNat 96

/-- Python `str.strip` whitespace set (ASCII part): space, tab, newline,
vertical tab, form feed, carriage return. -/
def pyIsSpace (c : Char) : Bool :=
  c = ' ' || c = '\t' || c = '\n' || c = Char.ofNat 11 || c = Char.ofNat 12 || c = '\r'

/-- Python `str.strip()`: drop leading and trailing whitespace. -/
def pyStrip (s : List Char) : List Char :=
  ((s.dropWhile pyIsSpace).reverse.dropWhile pyIsSpace).reverse

/-- Python `str.split(sep)` for a single-character separator: keeps empty
segments, always returns at least one segment. -/
def pySplit (sep : Char) : List Char → List (List Char)
  | [] => [[]]
  | c :: rest =>
    match pySplit sep rest with
    | [] => []
    | g :: gs => if c = sep then [] :: g :: gs else (c :: g) :: gs

/-- Python `'\n'.join`: intercalate a newline between code-block lines. -/
def joinNL (ls : List (List Char)) : List Char := List.intercalate ['\n'] ls

/-- The slice `s[a:b]` of a list. -/
def slice (s : List Char) (a b : Nat) : List Char := (s.drop a).take (b - a)

/-- Whether `pat` occurs as a contiguous substring. -/
def containsSub (pat : List Char) : List Char → Bool
  | [] => pat.isEmpty
  | c :: rest => pat.isPrefixOf (c :: rest) || containsSub pat rest

/-- Fueled worker for Python `str.replace(pat, rep)` (replaces every
non-overlapping occurrence, scanning left to right); `fuel` bounds the number
of scanning steps, each of which consumes at least one character when `pat`
is non-empty. -/
def pyReplaceFuel (pat rep : List Char) : Nat → List Char → List Char
  | 0, s => s
  | _, [] => []
  | fuel + 1, c :: rest =>
    if pat.isPrefixOf (c :: rest) then
      rep ++ pyReplaceFuel pat rep fuel (rest.drop (pat.length - 1))
    else
      c :: pyReplaceFuel pat rep fuel rest

/-- Python `s.replace(pat, rep)` for the non-empty pattern used by the code. -/
def pyReplace (pat rep s : List Char) : List Char := pyReplaceFuel pat rep s.length s

/-! ### Inline spans

The source collects regex matches for bold, italic and inline code over a
paragraph line, discards italic matches that start inside a bold match,
sorts all surviving matches by start offset (Python `list.sort` is stable;
`insertionSort` below is the same stable sort) and then walks them emitting
plain runs for the gaps and styled runs for the captured groups. -/

/-- An inline-formatted fragment of a paragraph (one `add_run` call). -/
inductive Span where
  | plain (text : List Char)
  | bold (text : List Char)
  | italic (text : List Char)
  | code (text : List Char)
deriving DecidableEq

/-- The underlying text of a span (the captured or literal characters). -/
def Span.text : Span → List Char
  | .plain t => t
  | .bold t => t
  | .italic t => t
  | .code t => t

/-- The span text with the delimiters of its style re-inserted around it. -/
def Span.wrapped : Span → List Char
  | .plain t => t
  | .bold t => '*' :: '*' :: t ++ ['*', '*']
  | .italic t => '*' :: t ++ ['*']
  | .code t => backquote :: t ++ [backquote]

/-- Style of a regex match. -/
inductive MStyle where
  | bold
  | italic
  | code
deriving DecidableEq

/-- Number of delimiter characters on each side of a match of this style. -/
def MStyle.dlen : MStyle → Nat
  | .bold => 2
  | _ => 1

/-- The delimiter string of a style. -/
def MStyle.delim : MStyle → List Char
  | .bold => ['*', '*']
  | .italic => ['*']
  | .code => [backquote]

/-- One regex match: style, start offset and captured group. -/
structure MatchItem where
  style : MStyle
  start : Nat
  group : List Char
deriving DecidableEq

/-- End offset of the whole match (Python `match.end()`). -/
def MatchItem.stop (m : MatchItem) : Nat := m.start + m.group.length + 2 * m.style.dlen

/-- The styled run emitted for a match. -/
def MatchItem.toSpan (m : MatchItem) : Span :=
  match m.style with
  | .bold => Span.bold m.group
  | .italic => Span.italic m.group
  | .code => Span.code m.group

/-- Indices at which character `d` occurs, in increasing order. -/
def occPositions (d : Char) : List Char → List Nat
  | [] => []
  | c :: rest =>
    let t := (occPositions d rest).map (· + 1)
    if c = d then 0 :: t else t

/-- Pair up consecutive elements: `finditer` of a lazy single-character
delimiter pattern pairs the 1st with the 2nd occurrence, the 3rd with the
4th, and so on (each match consumes its closing delimiter). -/
def pairOff : List Nat → List (Nat × Nat)
  | a :: b :: rest => (a, b) :: pairOff rest
  | _ => []

/-- Indices `i` with `s[i] = '*'` and `s[i+1] = '*'`, in increasing order. -/
def pairPositions : List Char → List Nat
  | a :: b :: rest =>
    let t := (pairPositions (b :: rest)).map (· + 1)
    if a = '*' ∧ b = '*' then 0 :: t else t
  | _ => []

/-- Scanning loop of `finditer` for the bold pattern over the list of star
pair positions.  `Sum.inl lb` means: looking for an opener at or past `lb`;
`Sum.inr o` means: an opener was found at `o`, looking for the first closer
at or past `o + 2`; after a match ending at closer `p` the scan resumes at
`p + 2`. -/
def pairStarsAux : Nat ⊕ Nat → List Nat → List (Nat × Nat)
  | _, [] => []
  | Sum.inl lb, p :: ps =>
    if lb ≤ p then pairStarsAux (Sum.inr p) ps else pairStarsAux (Sum.inl lb) ps
  | Sum.inr o, p :: ps =>
    if o + 2 ≤ p then (o, p) :: pairStarsAux (Sum.inl (p + 2)) ps
    else pairStarsAux (Sum.inr o) ps

/-- Opener/closer index pairs of the bold matches of a line. -/
def boldPairs (s : List Char) : List (Nat × Nat) := pairStarsAux (Sum.inl 0) (pairPositions s)

/-- Matches of `\*\*(.*?)\*\*` (match span `[o, c+2)`, group `s[o+2:c]`). -/
def boldMatches (s : List Char) : List MatchItem :=
  (boldPairs s).map fun pr => ⟨MStyle.bold, pr.1, slice s (pr.1 + 2) pr.2⟩

/-- Matches of `\*(.*?)\*` (match span `[a, b+1)`, group `s[a+1:b]`). -/
def italicAll (s : List Char) : List MatchItem :=
  (pairOff (occPositions '*' s)).map fun pr => ⟨MStyle.italic, pr.1, slice s (pr.1 + 1) pr.2⟩

/-- Matches of the inline-code pattern (backtick analogue of italic). -/
def codeMatches (s : List Char) : List MatchItem :=
  (pairOff (occPositions backquote s)).map fun pr => ⟨MStyle.code, pr.1, slice s (pr.1 + 1) pr.2⟩

/-- Whether offset `i` falls inside one of the bold matches
(`m.start() <= i < m.end()` for some bold match). -/
def insideAnyBold (bs : List MatchItem) (i : Nat) : Bool :=
  bs.any fun m => decide (m.start ≤ i) && decide (i < m.stop)

/-- Italic matches that survive the bold-precedence filter. -/
def keptItalics (s : List Char) : List MatchItem :=
  (italicAll s).filter fun m => ! insideAnyBold (boldMatches s) m.start

/-- All surviving matches in the order Python builds the list:
bold, then filtered italic, then code. -/
def allMatches (s : List Char) : List MatchItem :=
  boldMatches s ++ keptItalics s ++ codeMatches s

/-- Matches sorted by start offset (stable, like Python `list.sort`). -/
def sortedMatches (s : List Char) : List MatchItem :=
  List.insertionSort (fun a b => a.start ≤ b.start) (allMatches s)

/-- Walk the sorted matches emitting plain runs for gaps and styled runs for
groups; `pos` is `current_pos` of the source. -/
def emitLoop (text : List Char) : List MatchItem → Nat → List Span
  | [], pos => if pos < text.length then [Span.plain (text.drop pos)] else []
  | m :: rest, pos =>
    (if pos < m.start then [Span.plain (slice text pos m.start)] else [])
      ++ m.toSpan :: emitLoop text rest m.stop

/-- Inline-span extraction over one paragraph line: if no matches exist the
whole line is one plain run, otherwise the match walk above. -/
def extractSpans (text : List Char) : List Span :=
  if (sortedMatches text).isEmpty then [Span.plain text]
  else emitLoop text (sortedMatches text) 0

/-- Concatenated underlying text of a span list. -/
def concatText (spans : List Span) : List Char := (spans.map Span.text).flatten

/-- Concatenation of the spans with their style delimiters re-inserted. -/
def concatWrapped (spans : List Span) : List Char := (spans.map Span.wrapped).flatten

/-! ### Line classification -/

/-- A classified unit of the output document (one `add_heading`,
`add_paragraph` or picture insertion). -/
inductive Block where
  | heading (level : Nat) (text : List Char)
  | listBullet (text : List Char)
  | listNumber (text : List Char)
  | codePara (text : List Char)
  | picture (path : List Char)
  | caption (text : List Char)
  | para (text : List Char)
  | emptyPara
  | richPara (spans : List Span)
deriving DecidableEq

/-- Environment of effectful operations used by the converter: filesystem
existence checks, image embedding, directory creation, document saving, the
timestamp and the unused `markdown2.markdown` call (whose only observable
behaviour is whether it raises). -/
structure Env where
  pathExists : List Char → Bool
  addPicture : List Char → Except (List Char) Unit
  makedirsAt : List Char → Except (List Char) Unit
  saveAt : List Char → Except (List Char) Unit
  nowStamp : List Char
  md2html : Except (List Char) Unit

/-- The numbered-list pattern `^\d+\.\s`: one or more digits, a dot and one
whitespace character; returns the line with that prefix removed
(`re.sub(r..., '', line)`). -/
def numberedRest (line : List Char) : Option (List Char) :=
  let ds := line.takeWhile Char.isDigit
  if ds.isEmpty then none
  else
    match line.drop ds.length with
    | '.' :: c :: rest => if pyIsSpace c then some rest else none
    | _ => none

/-- Split at the last occurrence of the two-character sequence `](`,
returning the parts before and after it. -/
def splitLastBrackParen : List Char → Option (List Char × List Char)
  | [] => none
  | c :: rest =>
    match splitLastBrackParen rest with
    | some pr => some (c :: pr.1, pr.2)
    | none =>
      if c = ']' then
        match rest with
        | '(' :: r => some ([], r)
        | _ => none
      else none

/-- The image pattern `^!\[(.*)]\((.*)\)$` (same language as the guard
pattern `^!\[.*\]\(.*\)$`): the line starts with the two characters of an
image opener, ends with a closing parenthesis, and the greedy first group
extends to the last `](`; returns `(altText, path)`. -/
def parseImage (line : List Char) : Option (List Char × List Char) :=
  match line with
  | a :: b :: rest =>
    if a = '!' ∧ b = '[' then
      match rest.getLast? with
      | some c => if c = ')' then splitLastBrackParen rest.dropLast else none
      | none => none
    else none
  | _ => none

/-- The chart-directory prefix rewritten by the converter. -/
def chartPre : List Char := "../charts/".data

/-- The replacement directory. -/
def chartOut : List Char := "outputs/charts/".data

/-- Image-path resolution: when the path starts with `../charts/`, Python
`str.replace` substitutes `outputs/charts/` for every occurrence. -/
def resolveImgPath (p : List Char) : List Char :=
  if chartPre.isPrefixOf p then pyReplace chartPre chartOut p else p

/-- Placeholder paragraph text for a missing image file. -/
def imgNotFoundMsg (alt p : List Char) : List Char :=
  "[Image: ".data ++ alt ++ " - File not found: ".data ++ p ++ "]".data

/-- Placeholder paragraph text for an image that failed to embed. -/
def imgLoadErrMsg (alt e : List Char) : List Char :=
  "[Image: ".data ++ alt ++ " - Could not load: ".data ++ e ++ "]".data

/-- Blocks emitted for an image line with the given alt text and raw path. -/
def imageBlocks (env : Env) (alt path : List Char) : List Block :=
  let p := resolveImgPath path
  if env.pathExists p then
    match env.addPicture p with
    | Except.ok _ => Block.picture p :: (if alt.isEmpty then [] else [Block.caption alt])
    | Except.error e => [Block.para (imgLoadErrMsg alt e)]
  else
    [Block.para (imgNotFoundMsg alt p)]

/-- Whether a table row is purely a separator: the stripped cells between the
first and last `|` consist only of dash characters (the source strips every
dash from the joined cells and then vacuously checks the remaining
characters, which is the same test). -/
def isSeparatorRow (line : List Char) : Bool :=
  let cells := ((pySplit '|' line).drop 1).dropLast
  ((cells.map pyStrip).flatten).all (· = '-')

/-- Per-line classifier outside a code fence, mirroring the source branch
order: headings (shortest prefix first, each requiring its trailing space),
bullets, numbered items, images, table rows, blank lines, paragraphs. -/
def classifyLine (env : Env) (line : List Char) : List Block :=
  if "# ".data.isPrefixOf line then [Block.heading 1 (line.drop 2)]
  else if "## ".data.isPrefixOf line then [Block.heading 2 (line.drop 3)]
  else if "### ".data.isPrefixOf line then [Block.heading 3 (line.drop 4)]
  else if "#### ".data.isPrefixOf line then [Block.heading 4 (line.drop 5)]
  else if "- ".data.isPrefixOf line || "* ".data.isPrefixOf line then
    [Block.listBullet (line.drop 2)]
  else
    match numberedRest line with
    | some t => [Block.listNumber t]
    | none =>
      match parseImage line with
      | some pr => imageBlocks env pr.1 pr.2
      | none =>
        if line.contains '|' && "|".data.isPrefixOf (pyStrip line) then
          if isSeparatorRow line then [] else [Block.para line]
        else if (pyStrip line).isEmpty then [Block.emptyPara]
        else [Block.richPara (extractSpans line)]

/-- Fence marker test: `line.startswith('```')`. -/
def isFence (line : List Char) : Bool := "```".data.isPrefixOf line

/-- Parser state threaded through the line loop. -/
structure PState where
  codeBlock : Bool
  codeContent : List (List Char)
deriving DecidableEq

/-- Initial parser state. -/
def initState : PState := ⟨false, []⟩

/-- One step of the line loop: fence markers toggle the state (emitting the
buffered code on close when non-empty), lines inside a fence are buffered,
and all other lines go through the classifier. -/
def processLine (env : Env) (st : PState) (line : List Char) : PState × List Block :=
  if isFence line then
    if st.codeBlock then
      (⟨false, st.codeContent⟩,
        if st.codeContent.isEmpty then [] else [Block.codePara (joinNL st.codeContent)])
    else
      (⟨true, []⟩, [])
  else if st.codeBlock then
    (⟨true, st.codeContent ++ [line]⟩, [])
  else
    (st, classifyLine env line)

/-- The whole line loop: fold `processLine` over the lines, concatenating
the emitted blocks. -/
def processLines (env : Env) (st : PState) : List (List Char) → PState × List Block
  | [] => (st, [])
  | l :: ls =>
    ((processLines env (processLine env st l).1 ls).1,
      (processLine env st l).2 ++ (processLines env (processLine env st l).1 ls).2)

/-! ### The whole conversion call -/

/-- Success message of a conversion call. -/
def successMsg (p : List Char) : List Char :=
  "Successfully converted markdown to DOCX: ".data ++ p

/-- Error message produced by the outermost exception handler. -/
def errMsg (e : List Char) : List Char :=
  "Error converting markdown to DOCX: ".data ++ e

/-- Error text of Python `os.makedirs('')` (raises `FileNotFoundError` even
with `exist_ok=True`, which only suppresses `FileExistsError`). -/
def makedirsEmptyErr : List Char :=
  "[Errno 2] No such file or directory: ".data

/-- Python `os.makedirs(d, exist_ok=True)`: fails on the empty path,
otherwise behaves as the environment dictates. -/
def pyMakedirs (env : Env) (d : List Char) : Except (List Char) Unit :=
  if d.isEmpty then Except.error makedirsEmptyErr else env.makedirsAt d

/-- Everything of the path before the last slash: Python
`posixpath.dirname`. -/
def takeToLastSlash : List Char → Option (List Char)
  | [] => none
  | c :: rest =>
    match takeToLastSlash rest with
    | some t => some (c :: t)
    | none => if c = '/' then some [c] else none

/-- Python `os.path.dirname` on POSIX: the part up to and including the last
slash, with trailing slashes stripped unless the result is all slashes;
empty when the path has no slash. -/
def pyDirname (p : List Char) : List Char :=
  match takeToLastSlash p with
  | none => []
  | some head =>
    if head.all (· = '/') then head else (head.reverse.dropWhile (· = '/')).reverse

/-- Default output path built from the timestamp. -/
def defaultPath (now : List Char) : List Char :=
  "outputs/reports/data_analysis_report_".data ++ now ++ ".docx".data

/-- The output path a call resolves to. -/
def resolvePath (env : Env) (outPath : Option (List Char)) : List Char :=
  match outPath with
  | some p => p
  | none => defaultPath env.nowStamp

/-- Result of one conversion call: returned message, list of files written
to disk (a save that raises writes nothing in this model), and the document
blocks built in memory (title heading first). -/
structure RunResult where
  message : List Char
  writes : List (List Char)
  doc : List Block
deriving DecidableEq

/-- The document title block added before any content. -/
def titleBlock : Block := Block.heading 0 ("Data Analysis Report".data)

/-- The document built in memory: the fixed title followed by the blocks of
the line loop started from the initial state. -/
def buildDoc (env : Env) (content : List Char) : List Block :=
  titleBlock :: (processLines env initState (pySplit '\n' content)).2

/-- The whole conversion call `MarkdownToDocxTool._run`: resolve the output
path, build the document, ensure the output directory exists, save; every
failure is caught by the outermost handler and reported as an error
message. -/
def runModel (env : Env) (content : List Char) (outPath : Option (List Char)) : RunResult :=
  match env.md2html with
  | Except.error e => ⟨errMsg e, [], [titleBlock]⟩
  | Except.ok _ =>
    match pyMakedirs env (pyDirname (resolvePath env outPath)) with
    | Except.error e => ⟨errMsg e, [], buildDoc env content⟩
    | Except.ok _ =>
      match env.saveAt (resolvePath env outPath) with
      | Except.error e => ⟨errMsg e, [], buildDoc env content⟩
      | Except.ok _ =>
        ⟨successMsg (resolvePath env outPath), [resolvePath env outPath], buildDoc env content⟩

/-- A concrete environment for witnesses: nothing exists on disk, every
effectful operation succeeds. -/
def env0 : Env where
  pathExists := fun _ => false
  addPicture := fun _ => Except.ok ()
  makedirsAt := fun _ => Except.ok ()
  saveAt := fun _ => Except.ok ()
  nowStamp := "20250101_000000".data
  md2html := Except.ok ()

/-! ### Helper lemmas: slices -/

theorem slice_append_drop (s : List Char) (a b : Nat) (h : a ≤ b) :
    s.drop a = slice s a b ++ s.drop b := by
  have hab : a + (b - a) = b := by omega
  rw [slice]
  conv_lhs => rw [← List.take_append_drop (b - a) (s.drop a)]
  rw [List.drop_drop, hab]

theorem slice_cons_of_getElem (s : List Char) (a b : Nat) (x : Char)
    (hab : a < b) (hx : s[a]? = some x) :
    slice s a b = x :: slice s (a + 1) b := by
  have ha : a < s.length := by
    by_contra hc
    rw [List.getElem?_eq_none (by omega)] at hx
    exact Option.noConfusion hx
  have hdrop : s.drop a = s[a] :: s.drop (a + 1) := List.drop_eq_getElem_cons ha
  have hxa : s[a] = x := by
    rw [List.getElem?_eq_getElem ha] at hx
    exact Option.some.inj hx
  rw [slice, slice, hdrop, hxa]
  have hba : b - a = (b - (a + 1)) + 1 := by omega
  rw [hba, List.take_succ_cons]

theorem slice_snoc_of_getElem (s : List Char) (a b : Nat) (x : Char)
    (hab : a ≤ b) (hx : s[b]? = some x) :
    slice s a (b + 1) = slice s a b ++ [x] := by
  rw [slice, slice]
  have hba : b + 1 - a = (b - a) + 1 := by omega
  rw [hba, List.take_succ, List.getElem?_drop]
  have : a + (b - a) = b := by omega
  rw [this, hx]
  rfl

theorem length_slice (s : List Char) (a b : Nat) (hab : a ≤ b) (hb : b ≤ s.length) :
    (slice s a b).length = b - a := by
  rw [slice, List.length_take, List.length_drop]
  omega

/-! ### Helper lemmas: match positions -/

theorem occPositions_mem (d : Char) :
    ∀ (s : List Char) (i : Nat), i ∈ occPositions d s → i < s.length ∧ s[i]? = some d
  | [], i, h => by simp [occPositions] at h
  | c :: rest, i, h => by
    rw [occPositions] at h
    by_cases hc : c = d
    · simp only [if_pos hc] at h
      rcases List.mem_cons.mp h with rfl | h2
      · exact ⟨by simp, by simp [hc]⟩
      · obtain ⟨j, hj, rfl⟩ := List.mem_map.mp h2
        obtain ⟨h1, h2'⟩ := occPositions_mem d rest j hj
        exact ⟨by simp; omega, by simpa using h2'⟩
    · simp only [if_neg hc] at h
      obtain ⟨j, hj, rfl⟩ := List.mem_map.mp h
      obtain ⟨h1, h2'⟩ := occPositions_mem d rest j hj
      exact ⟨by simp; omega, by simpa using h2'⟩

theorem occPositions_sorted (d : Char) :
    ∀ (s : List Char), (occPositions d s).Pairwise (· < ·)
  | [] => by simp [occPositions]
  | c :: rest => by
    rw [occPositions]
    have ih := occPositions_sorted d rest
    have hmap : ((occPositions d rest).map (· + 1)).Pairwise (· < ·) := by
      rw [List.pairwise_map]
      exact ih.imp (by omega)
    by_cases hc : c = d
    · simp only [if_pos hc]
      refine List.pairwise_cons.mpr ⟨?_, hmap⟩
      intro x hx
      obtain ⟨j, _, rfl⟩ := List.mem_map.mp hx
      omega
    · simpa [if_neg hc] using hmap

theorem occPositions_eq_nil (d : Char) :
    ∀ (s : List Char), d ∉ s → occPositions d s = []
  | [], _ => rfl
  | c :: rest, h => by
    rw [occPositions]
    have hc : ¬ c = d := fun hcd => h (by simp [hcd])
    rw [if_neg hc, occPositions_eq_nil d rest (fun hm => h (List.mem_cons_of_mem c hm))]
    rfl

theorem pairOff_mem : ∀ (l : List Nat), l.Pairwise (· < ·) →
    ∀ pr ∈ pairOff l, pr.1 ∈ l ∧ pr.2 ∈ l ∧ pr.1 < pr.2
  | [], _, pr, h => by simp [pairOff] at h
  | [_], _, pr, h => by simp [pairOff] at h
  | a :: b :: rest, hp, pr, h => by
    rw [pairOff] at h
    rcases List.mem_cons.mp h with rfl | h2
    · exact ⟨by simp, by simp, (List.pairwise_cons.mp hp).1 b (by simp)⟩
    · have hrest : rest.Pairwise (· < ·) := hp.tail.tail
      obtain ⟨h1, h2', h3⟩ := pairOff_mem rest hrest pr h2
      exact ⟨by simp [h1], by simp [h2'], h3⟩

theorem pairPositions_mem :
    ∀ (s : List Char) (i : Nat), i ∈ pairPositions s →
      i + 1 < s.length ∧ s[i]? = some '*' ∧ s[i + 1]? = some '*'
  | [], i, h => by simp [pairPositions] at h
  | [_], i, h => by simp [pairPositions] at h
  | a :: b :: rest, i, h => by
    rw [pairPositions] at h
    by_cases hab : a = '*' ∧ b = '*'
    · simp only [if_pos hab] at h
      rcases List.mem_cons.mp h with rfl | h2
      · exact ⟨by simp, by simp [hab.1], by simp [hab.2]⟩
      · obtain ⟨j, hj, rfl⟩ := List.mem_map.mp h2
        obtain ⟨h1, h2', h3⟩ := pairPositions_mem (b :: rest) j hj
        exact ⟨by simp only [List.length_cons] at h1 ⊢; omega,
          by simpa using h2', by simpa using h3⟩
    · simp only [if_neg hab] at h
      obtain ⟨j, hj, rfl⟩ := List.mem_map.mp h
      obtain ⟨h1, h2', h3⟩ := pairPositions_mem (b :: rest) j hj
      exact ⟨by simp only [List.length_cons] at h1 ⊢; omega,
        by simpa using h2', by simpa using h3⟩

theorem pairPositions_eq_nil :
    ∀ (s : List Char), '*' ∉ s → pairPositions s = []
  | [] , _ => rfl
  | [_], _ => rfl
  | a :: b :: rest, h => by
    rw [pairPositions]
    have ha : ¬ a = '*' := fun hc => h (by simp [hc])
    rw [if_neg (fun hc => ha hc.1),
      pairPositions_eq_nil (b :: rest) (fun hm => h (List.mem_cons_of_mem a hm))]
    rfl

theorem pairStarsAux_mem (P : Nat → Prop) :
    ∀ (ps : List Nat) (mode : Nat ⊕ Nat), (∀ p ∈ ps, P p) →
      (∀ o, mode = Sum.inr o → P o) →
      ∀ pr ∈ pairStarsAux mode ps, P pr.1 ∧ P pr.2 ∧ pr.1 + 2 ≤ pr.2
  | [], mode, _, _, pr, h => by cases mode <;> simp [pairStarsAux] at h
  | p :: ps, Sum.inl lb, hP, _, pr, h => by
    rw [pairStarsAux] at h
    by_cases hlb : lb ≤ p
    · rw [if_pos hlb] at h
      exact pairStarsAux_mem P ps (Sum.inr p) (fun q hq => hP q (by simp [hq]))
        (fun o ho => by cases ho; exact hP p (by simp)) pr h
    · rw [if_neg hlb] at h
      exact pairStarsAux_mem P ps (Sum.inl lb) (fun q hq => hP q (by simp [hq]))
        (fun o ho => by cases ho) pr h
  | p :: ps, Sum.inr o, hP, hmode, pr, h => by
    rw [pairStarsAux] at h
    by_cases ho : o + 2 ≤ p
    · rw [if_pos ho] at h
      rcases List.mem_cons.mp h with rfl | h2
      · exact ⟨hmode o rfl, hP p (by simp), ho⟩
      · exact pairStarsAux_mem P ps (Sum.inl (p + 2)) (fun q hq => hP q (by simp [hq]))
          (fun o2 ho2 => by cases ho2) pr h2
    · rw [if_neg ho] at h
      exact pairStarsAux_mem P ps (Sum.inr o) (fun q hq => hP q (by simp [hq]))
        (fun o2 ho2 => by cases ho2; exact hmode o rfl) pr h

/-! ### Anchoring of matches in the line -/

/-- A match is anchored in the line: its whole span lies inside the line and
slicing it out yields exactly its delimiters around its captured group. -/
def Anchored (line : List Char) (m : MatchItem) : Prop :=
  m.stop ≤ line.length ∧
  slice line m.start m.stop = m.style.delim ++ m.group ++ m.style.delim

/-- Index `i` carries a star pair. -/
def starPairAt (s : List Char) (i : Nat) : Prop :=
  i + 1 < s.length ∧ s[i]? = some '*' ∧ s[i + 1]? = some '*'

theorem singleDelim_anchored (d : Char) (sty : MStyle)
    (hsty : sty.delim = [d]) (hdl : sty.dlen = 1)
    (s : List Char) (pr : Nat × Nat) (hpr : pr ∈ pairOff (occPositions d s)) :
    Anchored s ⟨sty, pr.1, slice s (pr.1 + 1) pr.2⟩ := by
  obtain ⟨h1, h2, hlt⟩ := pairOff_mem _ (occPositions_sorted d s) pr hpr
  obtain ⟨haL, haG⟩ := occPositions_mem d s pr.1 h1
  obtain ⟨hbL, hbG⟩ := occPositions_mem d s pr.2 h2
  have hglen : (slice s (pr.1 + 1) pr.2).length = pr.2 - (pr.1 + 1) :=
    length_slice s _ _ (by omega) (by omega)
  have hstop : MatchItem.stop ⟨sty, pr.1, slice s (pr.1 + 1) pr.2⟩ = pr.2 + 1 := by
    simp only [MatchItem.stop, hglen, hdl]
    omega
  refine ⟨by rw [hstop]; omega, ?_⟩
  rw [hstop]
  show slice s pr.1 (pr.2 + 1) = _
  rw [slice_snoc_of_getElem s pr.1 pr.2 d (by omega) hbG,
    slice_cons_of_getElem s pr.1 pr.2 d hlt haG, hsty]
  simp

theorem boldPairs_props (s : List Char) (pr : Nat × Nat) (hpr : pr ∈ boldPairs s) :
    starPairAt s pr.1 ∧ starPairAt s pr.2 ∧ pr.1 + 2 ≤ pr.2 :=
  pairStarsAux_mem (starPairAt s) (pairPositions s) (Sum.inl 0)
    (fun p hp => pairPositions_mem s p hp)
    (fun _ ho => by cases ho)
    pr hpr

theorem bold_anchored (s : List Char) (pr : Nat × Nat) (hpr : pr ∈ boldPairs s) :
    Anchored s ⟨MStyle.bold, pr.1, slice s (pr.1 + 2) pr.2⟩ := by
  obtain ⟨⟨haL, haG1, haG2⟩, ⟨hbL, hbG1, hbG2⟩, hlt⟩ := boldPairs_props s pr hpr
  have hglen : (slice s (pr.1 + 2) pr.2).length = pr.2 - (pr.1 + 2) :=
    length_slice s _ _ (by omega) (by omega)
  have hstop : MatchItem.stop ⟨MStyle.bold, pr.1, slice s (pr.1 + 2) pr.2⟩ = pr.2 + 2 := by
    simp only [MatchItem.stop, hglen, MStyle.dlen]
    omega
  refine ⟨by rw [hstop]; omega, ?_⟩
  rw [hstop]
  show slice s pr.1 (pr.2 + 1 + 1) = _
  rw [slice_snoc_of_getElem s pr.1 (pr.2 + 1) '*' (by omega) hbG2,
    slice_snoc_of_getElem s pr.1 pr.2 '*' (by omega) hbG1,
    slice_cons_of_getElem s pr.1 pr.2 '*' (by omega) haG1,
    slice_cons_of_getElem s (pr.1 + 1) pr.2 '*' (by omega) haG2]
  simp [MStyle.delim]

theorem mem_allMatches_anchored (s : List Char) (m : MatchItem) (hm : m ∈ allMatches s) :
    Anchored s m := by
  rw [allMatches, List.mem_append] at hm
  rcases hm with hbi | hc
  · rw [List.mem_append] at hbi
    rcases hbi with hb | hi
    · obtain ⟨pr, hpr, rfl⟩ := List.mem_map.mp hb
      exact bold_anchored s pr hpr
    · have hi2 : m ∈ italicAll s := List.mem_of_mem_filter hi
      obtain ⟨pr, hpr, rfl⟩ := List.mem_map.mp hi2
      exact singleDelim_anchored '*' MStyle.italic rfl rfl s pr hpr
  · obtain ⟨pr, hpr, rfl⟩ := List.mem_map.mp hc
    exact singleDelim_anchored backquote MStyle.code rfl rfl s pr hpr

theorem mem_sortedMatches_anchored (s : List Char) (m : MatchItem)
    (hm : m ∈ sortedMatches s) : Anchored s m :=
  mem_allMatches_anchored s m ((List.perm_insertionSort _ _).mem_iff.mp hm)

/-! ### The reconstruction property of the span walk -/

theorem concatWrapped_nil : concatWrapped [] = [] := rfl

theorem wrapped_plain (t : List Char) : (Span.plain t).wrapped = t := rfl

theorem concatWrapped_cons (sp : Span) (l : List Span) :
    concatWrapped (sp :: l) = sp.wrapped ++ concatWrapped l := by
  simp [concatWrapped]

theorem concatWrapped_append (l1 l2 : List Span) :
    concatWrapped (l1 ++ l2) = concatWrapped l1 ++ concatWrapped l2 := by
  simp [concatWrapped]

theorem toSpan_wrapped (m : MatchItem) :
    m.toSpan.wrapped = m.style.delim ++ m.group ++ m.style.delim := by
  cases m with
  | mk sty st g => cases sty <;> simp [MatchItem.toSpan, Span.wrapped, MStyle.delim]

theorem start_le_stop (m : MatchItem) : m.start ≤ m.stop := by
  simp only [MatchItem.stop]
  omega

theorem emitLoop_wrapped (line : List Char) :
    ∀ (ms : List MatchItem) (pos : Nat),
      (∀ m ∈ ms, Anchored line m) → (∀ m ∈ ms, pos ≤ m.start) →
      ms.Pairwise (fun a b => a.stop ≤ b.start) →
      concatWrapped (emitLoop line ms pos) = line.drop pos
  | [], pos, _, _, _ => by
    rw [emitLoop]
    by_cases h : pos < line.length
    · rw [if_pos h]
      simp [concatWrapped, Span.wrapped]
    · rw [if_neg h]
      have : line.drop pos = [] := List.drop_eq_nil_of_le (by omega)
      simp [concatWrapped, this]
  | m :: rest, pos, hA, hpos, hp => by
    rw [emitLoop]
    obtain ⟨hstopLen, hslice⟩ := hA m (by simp)
    have hposm : pos ≤ m.start := hpos m (by simp)
    have hrest := List.pairwise_cons.mp hp
    have ih := emitLoop_wrapped line rest m.stop
      (fun x hx => hA x (by simp [hx]))
      (fun x hx => hrest.1 x hx)
      hrest.2
    have hdrop1 : line.drop pos = slice line pos m.start ++ line.drop m.start :=
      slice_append_drop line pos m.start hposm
    have hdrop2 : line.drop m.start = slice line m.start m.stop ++ line.drop m.stop :=
      slice_append_drop line m.start m.stop (start_le_stop m)
    by_cases hlt : pos < m.start
    · rw [if_pos hlt]
      simp only [concatWrapped_append, concatWrapped_cons, concatWrapped_nil, ih,
        toSpan_wrapped, wrapped_plain, List.append_nil]
      rw [← hslice, hdrop1, hdrop2]
    · have hpe : pos = m.start := by omega
      rw [if_neg hlt, List.nil_append, concatWrapped_cons, ih, toSpan_wrapped,
        ← hslice, hpe, hdrop2]

/-! ### Absence of matches on delimiter-free lines -/

theorem boldMatches_eq_nil (s : List Char) (h : '*' ∉ s) : boldMatches s = [] := by
  rw [boldMatches, boldPairs, pairPositions_eq_nil s h]
  rfl

theorem italicAll_eq_nil (s : List Char) (h : '*' ∉ s) : italicAll s = [] := by
  rw [italicAll, occPositions_eq_nil '*' s h]
  rfl

theorem keptItalics_eq_nil (s : List Char) (h : '*' ∉ s) : keptItalics s = [] := by
  rw [keptItalics, italicAll_eq_nil s h]
  rfl

theorem codeMatches_eq_nil (s : List Char) (h : backquote ∉ s) : codeMatches s = [] := by
  rw [codeMatches, occPositions_eq_nil backquote s h]
  rfl

theorem sortedMatches_eq_nil (s : List Char) (h1 : '*' ∉ s) (h2 : backquote ∉ s) :
    sortedMatches s = [] := by
  rw [sortedMatches, allMatches, boldMatches_eq_nil s h1, keptItalics_eq_nil s h1,
    codeMatches_eq_nil s h2]
  rfl

/-! ### Claim theorems: inline spans -/

/-- C2 (amended): for every line whose surviving inline matches, in sorted
order, are mutually non-overlapping, re-inserting each styled span's
delimiters around its text reconstructs the input line exactly — so the
concatenated span text is the line with only the matched delimiter
characters removed, with no reordering and no loss of non-delimiter text;
and for a line containing no star and no backtick the extraction emits a
single plain span equal to the line. -/
theorem claim2_spans_reconstruct_line (line : List Char) :
    ((sortedMatches line).Pairwise (fun a b => a.stop ≤ b.start) →
      concatWrapped (extractSpans line) = line) ∧
    ('*' ∉ line → backquote ∉ line →
      extractSpans line = [Span.plain line] ∧ concatText (extractSpans line) = line) := by
  constructor
  · intro hp
    rw [extractSpans]
    by_cases he : (sortedMatches line).isEmpty
    · rw [if_pos he]
      simp [concatWrapped, wrapped_plain]
    · rw [if_neg he]
      have h := emitLoop_wrapped line (sortedMatches line) 0
        (fun m hm => mem_sortedMatches_anchored line m hm)
        (fun m _ => Nat.zero_le m.start)
        hp
      simpa using h
  · intro h1 h2
    have hnil : sortedMatches line = [] := sortedMatches_eq_nil line h1 h2
    rw [extractSpans, hnil]
    exact ⟨by simp, by simp [concatText, Span.text]⟩

/-- C2 counterexample: the five-character paragraph line star, backtick,
letter a, backtick, star.  Its italic match and its inline-code match
overlap, the emitted span text duplicates the letter and keeps delimiter
characters, so it is not the line with only the delimiter characters
removed (which would be just the letter a). -/
theorem claim2_counterexample :
    (processLine env0 initState ("*`a`*".data)).2 =
      [Block.richPara (extractSpans ("*`a`*".data))] ∧
    concatText (extractSpans ("*`a`*".data)) = "`a`a*".data ∧
    ("*`a`*".data).filter (fun c => !(c = '*' || c = backquote)) = "a".data ∧
    ¬ concatText (extractSpans ("*`a`*".data)) = "a".data := by decide

/-- Witness for C2: the amended theorem applied to the line of the spec's
bold-precedence example (whose matches are non-overlapping), and to a
delimiter-free two-character line. -/
theorem claim2_witness :
    concatWrapped (extractSpans ("**a** and *b*".data)) = "**a** and *b*".data ∧
    extractSpans ("xy".data) = [Span.plain ("xy".data)] :=
  ⟨(claim2_spans_reconstruct_line ("**a** and *b*".data)).1 (by decide),
   ((claim2_spans_reconstruct_line ("xy".data)).2 (by decide) (by decide)).1⟩

/-- C8: the paragraph line of the spec's bold-precedence example yields
exactly the spans bold a, plain separator text, italic b — two styled spans,
no nested or overlapping match; and in general every italic match kept by
the extraction starts outside every bold match's span. -/
theorem claim8_bold_precedence :
    extractSpans ("**a** and *b*".data) =
      [Span.bold ("a".data), Span.plain (" and ".data), Span.italic ("b".data)] ∧
    ∀ (line : List Char) (m : MatchItem), m ∈ keptItalics line →
      insideAnyBold (boldMatches line) m.start = false := by
  refine ⟨by decide, ?_⟩
  intro line m hm
  have h := (List.mem_filter.mp hm).2
  simpa using h

/-- Witness for C8: the general conjunct applied to the italic match of the
example line. -/
theorem claim8_witness :
    insideAnyBold (boldMatches ("**a** and *b*".data)) 10 = false :=
  claim8_bold_precedence.2 ("**a** and *b*".data)
    ⟨MStyle.italic, 10, ("b".data)⟩ (by decide)

/-! ### Claim theorems: whole-call behaviour -/

/-- C1: for every markdown string and optional output path, the conversion
call returns a string that is either the success message naming the resolved
path or an error message; no failure escapes as anything but a returned
error string. -/
theorem claim1_no_exception_escape (env : Env) (content : List Char)
    (outPath : Option (List Char)) :
    (∃ p, (runModel env content outPath).message = successMsg p) ∨
    (∃ e, (runModel env content outPath).message = errMsg e) := by
  rw [runModel]
  cases hmd : env.md2html with
  | error e => exact Or.inr ⟨e, rfl⟩
  | ok u =>
    cases hmk : pyMakedirs env (pyDirname (resolvePath env outPath)) with
    | error e => exact Or.inr ⟨e, rfl⟩
    | ok v =>
      cases hs : env.saveAt (resolvePath env outPath) with
      | error e => exact Or.inr ⟨e, rfl⟩
      | ok w => exact Or.inl ⟨resolvePath env outPath, rfl⟩

/-- C9: a conversion call writes the output file exactly once, as its final
step, and only on success: an error result leaves the write list empty, a
success result writes exactly the resolved path and returns the success
message naming it. -/
theorem claim9_single_final_write (env : Env) (content : List Char)
    (outPath : Option (List Char)) :
    ((∃ e, (runModel env content outPath).message = errMsg e) ∧
      (runModel env content outPath).writes = []) ∨
    ((runModel env content outPath).message = successMsg (resolvePath env outPath) ∧
      (runModel env content outPath).writes = [resolvePath env outPath]) := by
  rw [runModel]
  cases hmd : env.md2html with
  | error e => exact Or.inl ⟨⟨e, rfl⟩, rfl⟩
  | ok u =>
    cases hmk : pyMakedirs env (pyDirname (resolvePath env outPath)) with
    | error e => exact Or.inl ⟨⟨e, rfl⟩, rfl⟩
    | ok v =>
      cases hs : env.saveAt (resolvePath env outPath) with
      | error e => exact Or.inl ⟨⟨e, rfl⟩, rfl⟩
      | ok w => exact Or.inr ⟨rfl, rfl⟩

theorem takeToLastSlash_eq_none : ∀ (p : List Char), '/' ∉ p → takeToLastSlash p = none
  | [], _ => rfl
  | c :: rest, h => by
    rw [takeToLastSlash,
      takeToLastSlash_eq_none rest (fun hm => h (List.mem_cons_of_mem c hm))]
    have hc : ¬ c = '/' := fun hcc => h (by simp [hcc])
    simp [hc]

/-- C10: when the explicit output path has no directory component, the
directory-creation step fails (Python `os.makedirs('')` raises), the call
returns an error string, and nothing is written, even though the document
was built in memory. -/
theorem claim10_bare_filename_fails (env : Env) (content p : List Char)
    (hmd : env.md2html = Except.ok ()) (hp : '/' ∉ p) :
    (runModel env content (some p)).message = errMsg makedirsEmptyErr ∧
    (runModel env content (some p)).writes = [] ∧
    (runModel env content (some p)).doc = buildDoc env content := by
  have hd : pyDirname p = [] := by
    rw [pyDirname, takeToLastSlash_eq_none p hp]
  have hres : resolvePath env (some p) = p := rfl
  rw [runModel, hmd, hres, hd]
  simp [pyMakedirs]

/-- Witness for C10: a bare filename with the all-succeeding environment. -/
theorem claim10_witness :
    (runModel env0 ("# T".data) (some ("report.docx".data))).message =
      errMsg makedirsEmptyErr ∧
    (runModel env0 ("# T".data) (some ("report.docx".data))).writes = [] ∧
    (runModel env0 ("# T".data) (some ("report.docx".data))).doc =
      buildDoc env0 ("# T".data) :=
  claim10_bare_filename_fails env0 ("# T".data) ("report.docx".data) rfl (by decide)

/-! ### Claim theorems: image path rewriting -/

theorem pyReplaceFuel_no_occurrence (pat rep : List Char) :
    ∀ (fuel : Nat) (s : List Char), containsSub pat s = false →
      pyReplaceFuel pat rep fuel s = s := by
  intro fuel
  induction fuel with
  | zero => intro s _; cases s <;> rfl
  | succ n ih =>
    intro s hs
    cases s with
    | nil => rfl
    | cons c rest =>
      rw [containsSub, Bool.or_eq_false_iff] at hs
      rw [pyReplaceFuel, if_neg (by simp [hs.1]), ih rest hs.2]

theorem isPrefixOf_append_self : ∀ (l t : List Char), l.isPrefixOf (l ++ t) = true
  | [], t => by simp [List.isPrefixOf]
  | a :: l, t => by
    rw [List.cons_append, List.isPrefixOf]
    simp [isPrefixOf_append_self l t]

theorem pyReplaceFuel_leading (pat rep t : List Char) (hne : pat ≠ [])
    (ht : containsSub pat t = false) (fuel : Nat) :
    pyReplaceFuel pat rep (fuel + 1) (pat ++ t) = rep ++ t := by
  cases pat with
  | nil => exact absurd rfl hne
  | cons pc pt =>
    rw [List.cons_append, pyReplaceFuel,
      if_pos (by rw [← List.cons_append]; exact isPrefixOf_append_self (pc :: pt) t)]
    have hlen : (pc :: pt).length - 1 = pt.length := by simp
    rw [hlen, List.drop_left, pyReplaceFuel_no_occurrence (pc :: pt) rep fuel t ht]

theorem pyReplace_leading (pat rep t : List Char) (hne : pat ≠ [])
    (ht : containsSub pat t = false) :
    pyReplace pat rep (pat ++ t) = rep ++ t := by
  rw [pyReplace]
  obtain ⟨n, hn⟩ : ∃ n, (pat ++ t).length = n + 1 := by
    cases pat with
    | nil => exact absurd rfl hne
    | cons a l => exact ⟨(l ++ t).length, by simp⟩
  rw [hn, pyReplaceFuel_leading pat rep t hne ht n]

/-- C7 counterexample: a path in which the chart-directory prefix occurs
twice.  The code rewrites both occurrences (Python `str.replace` replaces
every occurrence), not only the leading one as the claim states. -/
theorem claim7_counterexample :
    resolveImgPath ("../charts/../charts/x.png".data) =
      "outputs/charts/outputs/charts/x.png".data ∧
    ¬ resolveImgPath ("../charts/../charts/x.png".data) =
      "outputs/charts/../charts/x.png".data := by decide

/-- C7 (amended): a path starting with the chart prefix has every occurrence
of the prefix string replaced; in particular when the remainder contains no
further occurrence exactly the leading prefix is rewritten; paths not
starting with the prefix are left unchanged. -/
theorem claim7_chart_prefix_rewrite (p t : List Char) :
    (chartPre.isPrefixOf p = false → resolveImgPath p = p) ∧
    (containsSub chartPre t = false →
      resolveImgPath (chartPre ++ t) = chartOut ++ t) := by
  constructor
  · intro h
    rw [resolveImgPath, if_neg (by simp [h])]
  · intro h
    rw [resolveImgPath, if_pos (isPrefixOf_append_self chartPre t)]
    exact pyReplace_leading chartPre chartOut t (by decide) h

/-- Witness for C7: a path without the prefix is unchanged; a path that is
the prefix followed by a bare file name rewrites exactly the prefix. -/
theorem claim7_witness :
    resolveImgPath ("x.png".data) = "x.png".data ∧
    resolveImgPath (chartPre ++ "x.png".data) = chartOut ++ "x.png".data :=
  ⟨(claim7_chart_prefix_rewrite ("x.png".data) []).1 (by decide),
   (claim7_chart_prefix_rewrite [] ("x.png".data)).2 (by decide)⟩

/-! ### Claim theorems: fence state machine -/

theorem processLines_cons (env : Env) (st : PState) (l : List Char) (ls : List (List Char)) :
    processLines env st (l :: ls) =
      ((processLines env (processLine env st l).1 ls).1,
        (processLine env st l).2 ++ (processLines env (processLine env st l).1 ls).2) := rfl

theorem processLine_flag (env : Env) (st : PState) (line : List Char) :
    (processLine env st line).1.codeBlock =
      (if isFence line then !st.codeBlock else st.codeBlock) := by
  by_cases hf : isFence line = true <;> cases hcb : st.codeBlock <;>
    simp [processLine, hf, hcb]

theorem processLines_flag (env : Env) :
    ∀ (lines : List (List Char)) (st : PState),
      (processLines env st lines).1.codeBlock =
        xor st.codeBlock (decide (lines.countP isFence % 2 = 1))
  | [], st => by simp [processLines]
  | l :: ls, st => by
    rw [processLines_cons]
    show (processLines env (processLine env st l).1 ls).1.codeBlock = _
    rw [processLines_flag env ls (processLine env st l).1, processLine_flag]
    have hsucc : ∀ k : Nat, decide ((k + 1) % 2 = 1) = !decide (k % 2 = 1) := by
      intro k
      rcases Nat.mod_two_eq_zero_or_one k with h | h <;> simp [Nat.add_mod, h]
    by_cases hf : isFence l = true
    · rw [if_pos hf]
      have hc : (l :: ls).countP isFence = ls.countP isFence + 1 := by
        rw [List.countP_cons, if_pos hf]
      rw [hc, hsucc]
      cases st.codeBlock <;> cases hd : decide (ls.countP isFence % 2 = 1) <;> simp [hd]
    · rw [if_neg hf]
      have hc : (l :: ls).countP isFence = ls.countP isFence := by
        rw [List.countP_cons, if_neg hf, Nat.add_zero]
      rw [hc]

theorem processLines_buffer (env : Env) :
    ∀ (mid buf : List (List Char)) (ls : List (List Char)),
      (∀ l ∈ mid, isFence l = false) →
      processLines env ⟨true, buf⟩ (mid ++ ls) = processLines env ⟨true, buf ++ mid⟩ ls
  | [], buf, ls, _ => by simp
  | m :: mid, buf, ls, h => by
    rw [List.cons_append, processLines_cons]
    have hm : isFence m = false := h m (by simp)
    have hstep : processLine env ⟨true, buf⟩ m = (⟨true, buf ++ [m]⟩, []) := by
      rw [processLine, if_neg (by simp [hm])]
      rfl
    rw [hstep]
    show processLines env ⟨true, buf ++ [m]⟩ (mid ++ ls) = _
    rw [processLines_buffer env mid (buf ++ [m]) ls (fun l hl => h l (by simp [hl]))]
    simp

/-- C4: the fence flag toggles exactly on fence-marker lines (a fence line
flips it, every other line preserves it); after processing any line list
with an even number of fence lines the flag is back to its initial value;
and a fence pair captures the non-fence lines between its markers verbatim,
in order, emitting them joined by newline as a single code block exactly
when that buffer is non-empty, after which processing continues. -/
theorem claim4_fence_state (env : Env) (st : PState) (line f g : List Char)
    (lines mid rest : List (List Char)) :
    (isFence line = true → (processLine env st line).1.codeBlock = !st.codeBlock) ∧
    (isFence line = false → (processLine env st line).1.codeBlock = st.codeBlock) ∧
    (lines.countP isFence % 2 = 0 →
      (processLines env st lines).1.codeBlock = st.codeBlock) ∧
    (isFence f = true → isFence g = true → st.codeBlock = false →
      (∀ l ∈ mid, isFence l = false) →
      processLines env st (f :: (mid ++ g :: rest)) =
        ((processLines env ⟨false, mid⟩ rest).1,
          (if mid.isEmpty then [] else [Block.codePara (joinNL mid)])
            ++ (processLines env ⟨false, mid⟩ rest).2)) := by
  refine ⟨?_, ?_, ?_, ?_⟩
  · intro hf
    rw [processLine_flag, if_pos hf]
  · intro hf
    rw [processLine_flag, if_neg (by simp [hf])]
  · intro hpar
    rw [processLines_flag]
    have hd : decide (lines.countP isFence % 2 = 1) = false := by
      rw [decide_eq_false_iff_not]
      omega
    rw [hd]
    cases st.codeBlock <;> rfl
  · intro hf hg hcb hmid
    have hstepf : processLine env st f = (⟨true, []⟩, []) := by
      rw [processLine, if_pos hf, if_neg (by simp [hcb])]
    have hstepg : processLine env ⟨true, mid⟩ g =
        (⟨false, mid⟩, if mid.isEmpty then [] else [Block.codePara (joinNL mid)]) := by
      rw [processLine, if_pos hg]
      rfl
    rw [processLines_cons, hstepf]
    show ((processLines env ⟨true, []⟩ (mid ++ g :: rest)).1,
        [] ++ (processLines env ⟨true, []⟩ (mid ++ g :: rest)).2) = _
    rw [List.nil_append, processLines_buffer env mid [] (g :: rest) hmid,
      List.nil_append, processLines_cons, hstepg]

/-- Witness for C4: the three fence lines of the spec's end-to-end example,
applied conjunct by conjunct at concrete inputs. -/
theorem claim4_witness :
    (processLine env0 initState ("```py".data)).1.codeBlock = !initState.codeBlock ∧
    (processLine env0 initState ("# T".data)).1.codeBlock = initState.codeBlock ∧
    (processLines env0 initState
      [("```".data), ("print(1)".data), ("```".data)]).1.codeBlock = initState.codeBlock ∧
    processLines env0 initState
        (("```".data) :: ([("print(1)".data)] ++ ("```".data) :: [])) =
      ((processLines env0 ⟨false, [("print(1)".data)]⟩ []).1,
        (if ([("print(1)".data)] : List (List Char)).isEmpty then []
          else [Block.codePara (joinNL [("print(1)".data)])])
          ++ (processLines env0 ⟨false, [("print(1)".data)]⟩ []).2) :=
  ⟨(claim4_fence_state env0 initState ("```py".data) [] [] [] [] []).1 (by decide),
   (claim4_fence_state env0 initState ("# T".data) [] [] [] [] []).2.1 (by decide),
   (claim4_fence_state env0 initState [] [] []
     [("```".data), ("print(1)".data), ("```".data)] [] []).2.2.1 (by decide),
   (claim4_fence_state env0 initState [] ("```".data) ("```".data) []
     [("print(1)".data)] []).2.2.2 (by decide) (by decide) rfl (by decide)⟩

/-! ### Claim theorems: classifier precedence -/

theorem nil_isPrefixOf (l : List Char) : ([] : List Char).isPrefixOf l = true := by
  cases l <;> rfl

theorem classifyLine_heading4 (env : Env) (rest : List Char) :
    classifyLine env ('#' :: '#' :: '#' :: '#' :: ' ' :: rest) = [Block.heading 4 rest] := by
  have h4 : ("#### ".data).isPrefixOf ('#' :: '#' :: '#' :: '#' :: ' ' :: rest) = true := by
    show ('#' :: '#' :: '#' :: '#' :: ' ' :: ([] : List Char)).isPrefixOf _ = true
    simp [List.isPrefixOf, nil_isPrefixOf]
  rw [classifyLine]
  simp only
    [show ("# ".data).isPrefixOf ('#' :: '#' :: '#' :: '#' :: ' ' :: rest) = false from rfl,
    show ("## ".data).isPrefixOf ('#' :: '#' :: '#' :: '#' :: ' ' :: rest) = false from rfl,
    show ("### ".data).isPrefixOf ('#' :: '#' :: '#' :: '#' :: ' ' :: rest) = false from rfl,
    h4]
  simp

theorem classifyLine_bullet_star (env : Env) (rest : List Char) :
    classifyLine env ('*' :: ' ' :: rest) = [Block.listBullet rest] := by
  have hb : ("* ".data).isPrefixOf ('*' :: ' ' :: rest) = true := by
    show ('*' :: ' ' :: ([] : List Char)).isPrefixOf _ = true
    simp [List.isPrefixOf, nil_isPrefixOf]
  rw [classifyLine]
  simp only [show ("# ".data).isPrefixOf ('*' :: ' ' :: rest) = false from rfl,
    show ("## ".data).isPrefixOf ('*' :: ' ' :: rest) = false from rfl,
    show ("### ".data).isPrefixOf ('*' :: ' ' :: rest) = false from rfl,
    show ("#### ".data).isPrefixOf ('*' :: ' ' :: rest) = false from rfl,
    show ("- ".data).isPrefixOf ('*' :: ' ' :: rest) = false from rfl,
    hb]
  simp

/-- C3: each line gets exactly one classification, in the source's branch
order: the code-fence state overrides all other classification; a line
beginning with four hashes and a space is classified level-4 heading, never
level 1, because every shorter heading prefix requires a space right after
its hashes; and a line beginning star-space is a bullet item even though it
could also read as an italic paragraph. -/
theorem claim3_classifier_precedence (env : Env) (st : PState) (line rest : List Char) :
    (st.codeBlock = true → isFence line = false →
      processLine env st line = (⟨true, st.codeContent ++ [line]⟩, [])) ∧
    (st.codeBlock = false →
      processLine env st ("#### ".data ++ rest) = (st, [Block.heading 4 rest])) ∧
    (st.codeBlock = false →
      processLine env st ('*' :: ' ' :: rest) = (st, [Block.listBullet rest])) := by
  refine ⟨?_, ?_, ?_⟩
  · intro h1 h2
    rw [processLine, if_neg (by simp [h2]), if_pos h1]
  · intro h1
    obtain ⟨cb, buf⟩ := st
    cases cb with
    | true => simp at h1
    | false =>
      show processLine env ⟨false, buf⟩ ('#' :: '#' :: '#' :: '#' :: ' ' :: rest) = _
      rw [processLine,
        if_neg (by
          simp
            [show isFence ('#' :: '#' :: '#' :: '#' :: ' ' :: rest) = false from rfl]),
        if_neg (by simp), classifyLine_heading4]
  · intro h1
    obtain ⟨cb, buf⟩ := st
    cases cb with
    | true => simp at h1
    | false =>
      rw [processLine,
        if_neg (by simp [show isFence ('*' :: ' ' :: rest) = false from rfl]),
        if_neg (by simp), classifyLine_bullet_star]

/-- Witness for C3: buffering inside a fence, a level-4 heading line and a
star bullet line. -/
theorem claim3_witness :
    processLine env0 ⟨true, []⟩ ("x".data) = (⟨true, [] ++ [("x".data)]⟩, []) ∧
    processLine env0 initState ("#### ".data ++ "T".data) =
      (initState, [Block.heading 4 ("T".data)]) ∧
    processLine env0 initState ('*' :: ' ' :: "b".data) =
      (initState, [Block.listBullet ("b".data)]) :=
  ⟨(claim3_classifier_precedence env0 ⟨true, []⟩ ("x".data) []).1 rfl (by decide),
   (claim3_classifier_precedence env0 initState [] ("T".data)).2.1 rfl,
   (claim3_classifier_precedence env0 initState [] ("b".data)).2.2 rfl⟩

/-! ### Claim theorems: table rows and images -/

theorem cons_of_isPrefixOf (c : Char) (cs s : List Char)
    (h : (c :: cs).isPrefixOf s = true) : ∃ t, s = c :: t := by
  cases s with
  | nil => exact absurd h (by simp [List.isPrefixOf])
  | cons b bs =>
    rw [List.isPrefixOf, Bool.and_eq_true] at h
    exact ⟨bs, by rw [eq_of_beq h.1]⟩

theorem dropWhile_nonspace_last (xs : List Char) (c : Char) (h : pyIsSpace c = false) :
    List.dropWhile pyIsSpace (xs ++ [c]) = List.dropWhile pyIsSpace xs ++ [c] := by
  rw [List.dropWhile_append]
  by_cases he : (List.dropWhile pyIsSpace xs).isEmpty = true
  · have hxs : List.dropWhile pyIsSpace xs = [] := by
      cases hx : List.dropWhile pyIsSpace xs
      · rfl
      · rw [hx] at he
        simp at he
    simp [if_pos he, hxs, List.dropWhile, h]
  · rw [if_neg he]

theorem pyStrip_head (c : Char) (cs line : List Char)
    (hpre : (c :: cs).isPrefixOf line = true) (hc : pyIsSpace c = false) :
    ∃ t, pyStrip line = c :: t := by
  obtain ⟨t0, rfl⟩ := cons_of_isPrefixOf c cs line hpre
  rw [pyStrip, List.dropWhile_cons, if_neg (by simp [hc]), List.reverse_cons,
    dropWhile_nonspace_last t0.reverse c hc]
  refine ⟨(List.dropWhile pyIsSpace t0.reverse).reverse, ?_⟩
  simp

theorem not_isPrefixOf_of_strip_pipe (line t : List Char)
    (hs : pyStrip line = '|' :: t) (c : Char) (cs : List Char)
    (hc : pyIsSpace c = false) (hcp : ¬ c = '|') :
    (c :: cs).isPrefixOf line = false := by
  cases hx : (c :: cs).isPrefixOf line with
  | false => rfl
  | true =>
    obtain ⟨t2, ht2⟩ := pyStrip_head c cs line hx hc
    rw [hs] at ht2
    injection ht2 with h1 _
    exact absurd h1.symm hcp

theorem numberedRest_none_of_nondigit (c : Char) (t0 : List Char)
    (hnd : Char.isDigit c = false) : numberedRest (c :: t0) = none := by
  rw [numberedRest]
  simp [List.takeWhile_cons, hnd]

theorem space_not_digit (c : Char) (hq : pyIsSpace c = true) : Char.isDigit c = false := by
  rw [pyIsSpace] at hq
  simp only [Bool.or_eq_true, decide_eq_true_eq] at hq
  rcases hq with ((((h | h) | h) | h) | h) | h <;> subst h <;> decide

theorem numberedRest_none_of_strip_pipe (line t : List Char)
    (hs : pyStrip line = '|' :: t) : numberedRest line = none := by
  cases line with
  | nil => rfl
  | cons c t0 =>
    cases hd : Char.isDigit c with
    | false => exact numberedRest_none_of_nondigit c t0 hd
    | true =>
      exfalso
      have hsp : pyIsSpace c = false := by
        cases hq : pyIsSpace c with
        | false => rfl
        | true =>
          rw [space_not_digit c hq] at hd
          exact absurd hd (by simp)
      have hpre : ([c] : List Char).isPrefixOf (c :: t0) = true := by
        simp [List.isPrefixOf, nil_isPrefixOf]
      obtain ⟨t2, ht2⟩ := pyStrip_head c [] (c :: t0) hpre hsp
      rw [hs] at ht2
      injection ht2 with h1 _
      rw [← h1] at hd
      exact absurd hd (by decide)

theorem parseImage_shape (line : List Char) (pr : List Char × List Char)
    (h : parseImage line = some pr) : ∃ t, line = '!' :: '[' :: t := by
  cases line with
  | nil => exact absurd h (by simp [parseImage])
  | cons a rest =>
    cases rest with
    | nil => exact absurd h (by simp [parseImage])
    | cons b t =>
      rw [parseImage] at h
      by_cases hab : a = '!' ∧ b = '['
      · exact ⟨t, by rw [hab.1, hab.2]⟩
      · rw [if_neg hab] at h
        exact absurd h (by simp)

theorem parseImage_none_of_strip_pipe (line t : List Char)
    (hs : pyStrip line = '|' :: t) : parseImage line = none := by
  cases hp : parseImage line with
  | none => rfl
  | some pr =>
    exfalso
    obtain ⟨t0, rfl⟩ := parseImage_shape line pr hp
    have hpre : (('!' : Char) :: ['[']).isPrefixOf ('!' :: '[' :: t0) = true := by
      simp [List.isPrefixOf, nil_isPrefixOf]
    obtain ⟨t2, ht2⟩ := pyStrip_head '!' ['['] _ hpre (by decide)
    rw [hs] at ht2
    injection ht2 with h1 _
    exact absurd h1 (by decide)

/-- C5: every table-row line (one containing a pipe whose stripped form
starts with a pipe) reaches the table branch: it produces zero blocks when
it is purely a separator row (every stripped cell made of dashes), and a
single raw-text paragraph carrying the whole line otherwise. -/
theorem claim5_table_rows (env : Env) (st : PState) (line : List Char)
    (hcb : st.codeBlock = false)
    (hmem : line.contains '|' = true)
    (hpre : ("|".data).isPrefixOf (pyStrip line) = true) :
    processLine env st line =
      (st, if isSeparatorRow line then [] else [Block.para line]) := by
  obtain ⟨t, hs⟩ := cons_of_isPrefixOf '|' [] (pyStrip line) hpre
  have hfence : isFence line = false :=
    not_isPrefixOf_of_strip_pipe line t hs backquote ("``".data) (by decide) (by decide)
  have h1 : ("# ".data).isPrefixOf line = false :=
    not_isPrefixOf_of_strip_pipe line t hs '#' (" ".data) (by decide) (by decide)
  have h2 : ("## ".data).isPrefixOf line = false :=
    not_isPrefixOf_of_strip_pipe line t hs '#' ("# ".data) (by decide) (by decide)
  have h3 : ("### ".data).isPrefixOf line = false :=
    not_isPrefixOf_of_strip_pipe line t hs '#' ("## ".data) (by decide) (by decide)
  have h4 : ("#### ".data).isPrefixOf line = false :=
    not_isPrefixOf_of_strip_pipe line t hs '#' ("### ".data) (by decide) (by decide)
  have hb1 : ("- ".data).isPrefixOf line = false :=
    not_isPrefixOf_of_strip_pipe line t hs '-' (" ".data) (by decide) (by decide)
  have hb2 : ("* ".data).isPrefixOf line = false :=
    not_isPrefixOf_of_strip_pipe line t hs '*' (" ".data) (by decide) (by decide)
  have hnum : numberedRest line = none := numberedRest_none_of_strip_pipe line t hs
  have himg : parseImage line = none := parseImage_none_of_strip_pipe line t hs
  rw [processLine, if_neg (by simp [hfence]), if_neg (by simp [hcb]), classifyLine]
  simp only [h1, h2, h3, h4, hb1, hb2, hnum, himg, hmem, hpre]
  simp

/-- Witness for C5: a separator row vanishes and a content row is kept as a
raw paragraph. -/
theorem claim5_witness :
    processLine env0 initState ("|---|---|".data) =
      (initState,
        if isSeparatorRow ("|---|---|".data) then []
        else [Block.para ("|---|---|".data)]) ∧
    processLine env0 initState ("| a | b |".data) =
      (initState,
        if isSeparatorRow ("| a | b |".data) then []
        else [Block.para ("| a | b |".data)]) :=
  ⟨claim5_table_rows env0 initState ("|---|---|".data) rfl (by decide) (by decide),
   claim5_table_rows env0 initState ("| a | b |".data) rfl (by decide) (by decide)⟩

/-- C6: an image line whose resolved path does not exist produces exactly
one paragraph block with the file-not-found placeholder text built from the
alt text and the resolved path, embedding is not attempted, and processing
of the following lines continues unchanged from the same state. -/
theorem claim6_missing_image (env : Env) (st : PState) (line alt path : List Char)
    (hcb : st.codeBlock = false)
    (himg : parseImage line = some (alt, path))
    (hex : env.pathExists (resolveImgPath path) = false) :
    processLine env st line =
      (st, [Block.para (imgNotFoundMsg alt (resolveImgPath path))]) ∧
    ∀ ls, (processLines env st (line :: ls)).2 =
      Block.para (imgNotFoundMsg alt (resolveImgPath path)) :: (processLines env st ls).2 := by
  obtain ⟨t, rfl⟩ := parseImage_shape line (alt, path) himg
  have step : processLine env st ('!' :: '[' :: t) =
      (st, [Block.para (imgNotFoundMsg alt (resolveImgPath path))]) := by
    rw [processLine,
      if_neg (by simp [show isFence ('!' :: '[' :: t) = false from rfl]),
      if_neg (by simp [hcb]), classifyLine]
    simp only [show ("# ".data).isPrefixOf ('!' :: '[' :: t) = false from rfl,
      show ("## ".data).isPrefixOf ('!' :: '[' :: t) = false from rfl,
      show ("### ".data).isPrefixOf ('!' :: '[' :: t) = false from rfl,
      show ("#### ".data).isPrefixOf ('!' :: '[' :: t) = false from rfl,
      show ("- ".data).isPrefixOf ('!' :: '[' :: t) = false from rfl,
      show ("* ".data).isPrefixOf ('!' :: '[' :: t) = false from rfl,
      show numberedRest ('!' :: '[' :: t) = none from
        numberedRest_none_of_nondigit '!' ('[' :: t) (by decide),
      himg]
    simp [imageBlocks, hex]
  refine ⟨step, fun ls => ?_⟩
  rw [processLines_cons, step]
  rfl

/-- Witness for C6: the spec's own example line with a nonexistent path. -/
theorem claim6_witness :
    processLine env0 initState ("![alt](nope.png)".data) =
      (initState,
        [Block.para (imgNotFoundMsg ("alt".data) (resolveImgPath ("nope.png".data)))]) ∧
    (processLines env0 initState [("![alt](nope.png)".data), ("x".data)]).2 =
      Block.para (imgNotFoundMsg ("alt".data) (resolveImgPath ("nope.png".data)))
        :: (processLines env0 initState [("x".data)]).2 := by
  have h := claim6_missing_image env0 initState ("![alt](nope.png)".data)
    ("alt".data) ("nope.png".data) rfl (by decide) rfl
  exact ⟨h.1, h.2 [("x".data)]⟩

end MD

